import Mathlib

/-
Verification of the Enigma machine simulator.

This file gives a shallow embedding of the Go sources into Lean:
bytes are modelled as natural numbers with explicit mod-256 wraps where
the Go uint8 arithmetic can wrap, the fixed 26-entry wiring arrays are
modelled as total functions on Nat (only ever read at indices below 26,
exactly as the Go arrays are), and the mutable machine is modelled by
explicit state passing.  Functions that can fail return an explicit
verdict; a Go runtime panic (array index out of range) is modelled by a
dedicated `crash` outcome.
-/

namespace Enigma

/-- The alphabet size, `numLetters` in the Go sources. -/
def numLetters : Nat := 26

/-- Go uint8 subtraction `a - b` (wrapping modulo 256). -/
def sub8 (a b : Nat) : Nat := (a % 256 + (256 - b % 256)) % 256

/-- The byte is an upper-case ASCII letter, the machine's working alphabet. -/
def isLetter (c : Nat) : Prop := 65 ≤ c ∧ c ≤ 90

instance (c : Nat) : Decidable (isLetter c) := by unfold isLetter; infer_instance

/-- `Rotor` from the Go sources: the right-to-left wiring array and the
turnover-point marks, both indexed by contact 0..25. -/
structure Rotor where
  rlMapping : Nat → Nat
  turnoverPoints : Nat → Bool

/-- `Reflector` from the Go sources: a single wiring array. -/
structure Reflector where
  mapping : Nat → Nat

/-- Outcome of running one of the Go validation functions: normal success,
a returned configuration error, or a runtime panic (array index out of
range). -/
inductive Check where
  | ok
  | confErr
  | crash
deriving DecidableEq

/-- The scanning loop of Go `ValidateRotor` (src/enigma/rotor.go).  The fuel
`k` counts the remaining iterations; the current index is `26 - k`.  Each
step checks `v > 26` (the Go code's off-by-one bounds test; `v < 0` is
vacuous for uint8) and then writes `seen[v]`, which panics when `v = 26`. -/
def vrScan (rl : Nat → Nat) : Nat → (Nat → Bool) → Check
  | 0, seen => if (List.range 26).all seen then Check.ok else Check.confErr
  | k + 1, seen =>
    let i := 26 - (k + 1)
    let v := rl i
    if 26 < v then Check.confErr
    else if v = 26 then Check.crash
    else vrScan rl k (fun j => if j = v then true else seen j)

/-- Go `ValidateRotor`: scan the 26 wiring entries, then require every
value 0..25 to have been seen. -/
def validateRotor (r : Rotor) : Check :=
  vrScan r.rlMapping 26 (fun _ => false)

/-- The loop of Go `ValidateReflector` (src/enigma/reflector.go): bounds
test (`v > 26`, with `v = 26` panicking at `mapping[to]`), no fixed point,
and involution at every index. -/
def refScan (f : Nat → Nat) : Nat → Check
  | 0 => Check.ok
  | k + 1 =>
    let i := 26 - (k + 1)
    let v := f i
    if 26 < v then Check.confErr
    else if v = 26 then Check.crash
    else if v = i then Check.confErr
    else if f v ≠ i then Check.confErr
    else refScan f k

/-- Go `ValidateReflector`. -/
def validateReflector (r : Reflector) : Check :=
  refScan r.mapping 26

/-- The parsing loop shared by Go `makeRotor`/`makeReflector`:
`rlMapping[i] = s[i] - 'A'` over the 26-byte wiring string. -/
def parseWiring (s : List Nat) : Nat → Nat :=
  fun i => sub8 (s.getD i 0) 65

/-- Outcome of Go `makeRotor`: a built rotor, a returned error, or a panic. -/
inductive MakeRotorResult where
  | ok (r : Rotor)
  | confErr
  | crash

/-- Go `makeRotor` (src/enigma/rotor.go): length test, parse the wiring,
mark the turnover point (`turnoverPoints[t - 'A'] = true`, which panics
when `t - 'A'` is 26 or more), then run `ValidateRotor`. -/
def makeRotor (s : List Nat) (t : Nat) : MakeRotorResult :=
  if s.length ≠ 26 then MakeRotorResult.confErr
  else
    let ti := sub8 t 65
    if 26 ≤ ti then MakeRotorResult.crash
    else
      let r : Rotor := ⟨parseWiring s, fun j => j == ti⟩
      match validateRotor r with
      | Check.ok => MakeRotorResult.ok r
      | Check.confErr => MakeRotorResult.confErr
      | Check.crash => MakeRotorResult.crash

/-- The plugboard's `map[byte]byte`, modelled as an association list with
first-match lookup; `AddPlugPair` only ever inserts fresh keys at the
head, so first-match lookup agrees with the Go map. -/
abbrev Plugboard : Type := List (Nat × Nat)

/-- Lookup in the plugboard map. -/
def pbLookup : Plugboard → Nat → Option Nat
  | [], _ => none
  | e :: rest, x => if x = e.1 then some e.2 else pbLookup rest x

/-- Go `Plugboard.AddPlugPair` (src/plugboard.go): reject either letter if
it is already mapped, otherwise write `mapping[left] = right` and then
`mapping[right] = left` (so for `left = right` the single key ends up
mapped to itself).  `none` models the returned error. -/
def addPlugPair (p : Plugboard) (left right : Nat) : Option Plugboard :=
  if (pbLookup p left).isSome then none
  else if (pbLookup p right).isSome then none
  else some ((right, left) :: (left, right) :: p)

/-- Go `Plugboard.mapLetter` on the machine's possibly-nil plugboard
pointer: identity when no plugboard is present or the letter is unmapped. -/
def mapLetter (p : Option Plugboard) (letter : Nat) : Nat :=
  match p with
  | none => letter
  | some pb => (pbLookup pb letter).getD letter

/-- The loop of Go `makePlugboard`: add the pairs in order, failing (the
Go code calls `log.Fatalf`) as soon as one addition errors. -/
def buildAux (p : Plugboard) : List (Nat × Nat) → Option Plugboard
  | [] => some p
  | pr :: rest =>
    match addPlugPair p pr.1 pr.2 with
    | none => none
    | some p' => buildAux p' rest

/-- Go `makePlugboard`, starting from the empty plugboard. -/
def buildPlugboard (pairs : List (Nat × Nat)) : Option Plugboard :=
  buildAux [] pairs

/-- `rotorState` from src/unnamed/part_000: a rotor installed on the
spindle, with the derived left-to-right mapping, ring setting and current
rotation. -/
structure RotorState where
  rlMapping : Nat → Nat
  turnoverPoints : Nat → Bool
  lrMapping : Nat → Nat
  ringsetting : Nat
  rotation : Nat

/-- The zero value of `rotorState`, used as the out-of-range default for
array reads that the Go code never actually performs. -/
def defaultRS : RotorState :=
  ⟨fun _ => 0, fun _ => false, fun _ => 0, 0, 0⟩

/-- The derivation loop of Go `setUpRotor`: starting from a zeroed array,
`lrMapping[rlMapping[i]] = i` for i = 0..25 (later writes win). -/
def setUpLr (rl : Nat → Nat) : Nat → Nat :=
  (List.range 26).foldl (fun lr i => fun j => if j = rl i then i else lr j) (fun _ => 0)

/-- Go `setUpRotor`: copy the wiring and turnover points and derive the
left-to-right mapping; ring setting and rotation start at zero. -/
def setUpRotor (base : Rotor) : RotorState :=
  { rlMapping := base.rlMapping
    turnoverPoints := base.turnoverPoints
    lrMapping := setUpLr base.rlMapping
    ringsetting := 0
    rotation := 0 }

/-- Go `InstallRotors`: set up each rotor, left to right. -/
def installRotors (rotors : List Rotor) : List RotorState :=
  rotors.map setUpRotor

/-- Go `SetRingSettings`: `ringsetting = pos - 'A'` for each supplied
setting, left to right (the Go loop ranges over the settings list). -/
def setRingSettings : List RotorState → List Nat → List RotorState
  | [], _ => []
  | r :: rs, [] => r :: rs
  | r :: rs, p :: ps => { r with ringsetting := sub8 p 65 } :: setRingSettings rs ps

/-- Go `SetRotorPositions`: `rotation = pos - 'A'`, left to right. -/
def setRotorPositions : List RotorState → List Nat → List RotorState
  | [], _ => []
  | r :: rs, [] => r :: rs
  | r :: rs, p :: ps => { r with rotation := sub8 p 65 } :: setRotorPositions rs ps

/-- Go `getRotorPositions`: each rotation re-encoded as a letter. -/
def getRotorPositions (rs : List RotorState) : List Nat :=
  rs.map (fun r => (r.rotation + 65) % 256)

/-- Go `(*enigma).rotate` from src/unnamed/part_000: every slot is
examined against the pre-step rotations (the loop reads slot `i`'s own
rotation and slot `i+1`'s rotation before either is updated), and a slot
turns iff it is the rightmost slot, or it sits at its own notch with a
slot on each side, or its right neighbour sits at a notch.  The Go `||`
short-circuits, so the neighbour read at `i = n-1` never happens; here the
out-of-range default has no notches, which gives the same value. -/
def rotate (rs : List RotorState) : List RotorState :=
  (List.range rs.length).map (fun i =>
    let r := rs.getD i defaultRS
    let rNext := rs.getD (i + 1) defaultRS
    let turn := (i == rs.length - 1)
      || (decide (0 < i) && decide (i + 1 < rs.length) && r.turnoverPoints r.rotation)
      || rNext.turnoverPoints rNext.rotation
    if turn then { r with rotation := (r.rotation + 1) % numLetters } else r)

/-- The loop body of Go `(*logical).rotate` (src/logical.go), applied to
the reversed slot list (rightmost slot first): step the current slot and
continue left only if it stepped from a turnover point. -/
def cascadeAux : List RotorState → List RotorState
  | [] => []
  | r :: rest =>
    let turnover := r.turnoverPoints r.rotation
    let r' := { r with rotation := (r.rotation + 1) % numLetters }
    if turnover then r' :: cascadeAux rest else r' :: rest

/-- Go `(*logical).rotate`: the cascade runs from the rightmost slot
leftwards. -/
def logicalRotate (rs : List RotorState) : List RotorState :=
  (cascadeAux rs.reverse).reverse

/-- Go `addRotation`: uint8 `(contact + rot - ringsetting + numLetters) %
numLetters`; the inner arithmetic wraps modulo 256. -/
def addRotation (rot ringsetting contact : Nat) : Nat :=
  ((contact % 256 + rot % 256 + (256 - ringsetting % 256) + numLetters) % 256) % numLetters

/-- Go `removeRotation`: uint8 `(contact - rot + ringsetting +
2*numLetters) % numLetters`. -/
def removeRotation (rot ringsetting contact : Nat) : Nat :=
  ((contact % 256 + (256 - rot % 256) + ringsetting % 256 + 2 * numLetters) % 256) % numLetters

/-- One slot of the right-to-left pass in Go `KeyPress`: align, apply the
right-to-left wiring, align back. -/
def rotorBackward (r : RotorState) (contact : Nat) : Nat :=
  removeRotation r.rotation r.ringsetting
    (r.rlMapping (addRotation r.rotation r.ringsetting contact))

/-- One slot of the left-to-right pass in Go `KeyPress`. -/
def rotorForward (r : RotorState) (contact : Nat) : Nat :=
  removeRotation r.rotation r.ringsetting
    (r.lrMapping (addRotation r.rotation r.ringsetting contact))

/-- The right-to-left rotor loop of `KeyPress` (rightmost slot first). -/
def rlPass (rs : List RotorState) (contact : Nat) : Nat :=
  rs.foldr rotorBackward contact

/-- The left-to-right rotor loop of `KeyPress` (leftmost slot first). -/
def lrPass (rs : List RotorState) (contact : Nat) : Nat :=
  rs.foldl (fun c r => rotorForward r c) contact

/-- The `enigma` struct of src/unnamed/part_000. -/
structure Machine where
  plugboard : Option Plugboard
  reflector : Reflector
  rotor : List RotorState

/-- The electrical path of Go `KeyPress`, run after the rotors have
stepped: plugboard, stator (`letter - 'A'`), rotors right to left,
reflector, rotors left to right, stator (`contact + 'A'`), plugboard. -/
def signalPath (m : Machine) (letter : Nat) : Nat :=
  let l1 := mapLetter m.plugboard letter
  let c0 := sub8 l1 65
  let c1 := rlPass m.rotor c0
  let c2 := m.reflector.mapping c1
  let c3 := lrPass m.rotor c2
  mapLetter m.plugboard ((c3 + 65) % 256)

/-- Go `KeyPress`: rotate the rotors, then run the electrical path through
the stepped machine; returns the stepped machine and the lit lamp. -/
def keyPress (m : Machine) (letter : Nat) : Machine × Nat :=
  let m' := { m with rotor := rotate m.rotor }
  (m', signalPath m' letter)

/-- Go `Type` (src/operator.go): spaces are copied through without a
keystroke; every other byte is run through `KeyPress`. -/
def typeMsg : Machine → List Nat → Machine × List Nat
  | m, [] => (m, [])
  | m, c :: cs =>
    if c = 32 then
      let r := typeMsg m cs
      (r.1, 32 :: r.2)
    else
      let k := keyPress m c
      let r := typeMsg k.1 cs
      (r.1, k.2 :: r.2)

/-- The machine state reached after `Type` has consumed a list of bytes:
spaces leave the state alone, other bytes advance it by one `KeyPress`. -/
def stepChars (m : Machine) (l : List Nat) : Machine :=
  l.foldl (fun m c => if c = 32 then m else (keyPress m c).1) m

/-- The machine state after pressing a sequence of keys. -/
def pressSeq (m : Machine) (ks : List Nat) : Machine :=
  ks.foldl (fun m k => (keyPress m k).1) m

/-- The lamp outputs of pressing a sequence of keys. -/
def pressOuts : Machine → List Nat → List Nat
  | _, [] => []
  | m, k :: ks => (keyPress m k).2 :: pressOuts (keyPress m k).1 ks

/- Concrete historical wirings (src/enigma/rotor.go and reflector.go),
as byte lists. -/

/-- Wiring string of rotor I, notch at Q. -/
def wiringI : List Nat :=
  [69, 75, 77, 70, 76, 71, 68, 81, 86, 90, 78, 84, 79, 87, 89, 72, 88, 85, 83, 80, 65, 73, 66, 82, 67, 74]

/-- Wiring string of rotor II, notch at E. -/
def wiringII : List Nat :=
  [65, 74, 68, 75, 83, 73, 82, 85, 88, 66, 76, 72, 87, 84, 77, 67, 81, 71, 90, 78, 80, 89, 70, 86, 79, 69]

/-- Wiring string of rotor III, notch at V. -/
def wiringIII : List Nat :=
  [66, 68, 70, 72, 74, 76, 67, 80, 82, 84, 88, 86, 90, 78, 89, 69, 73, 87, 71, 65, 75, 77, 85, 83, 81, 79]

/-- Wiring string of reflector B. -/
def wiringReflB : List Nat :=
  [89, 82, 85, 72, 81, 83, 76, 68, 80, 88, 78, 71, 79, 75, 77, 73, 69, 66, 70, 90, 67, 87, 86, 74, 65, 84]

/-- Rotor I ("EKMFLGDQVZNTOWYHXUSPAIBRCJ", notch Q). -/
def rotorI : Rotor := ⟨parseWiring wiringI, fun j => j == 16⟩

/-- Rotor II ("AJDKSIRUXBLHWTMCQGZNPYFVOE", notch E). -/
def rotorII : Rotor := ⟨parseWiring wiringII, fun j => j == 4⟩

/-- Rotor III ("BDFHJLCPRTXVZNYEIWGAKMUSQO", notch V). -/
def rotorIII : Rotor := ⟨parseWiring wiringIII, fun j => j == 21⟩

/-- Reflector B ("YRUHQSLDPXNGOKMIEBFZCWVJAT"). -/
def reflectorB : Reflector := ⟨parseWiring wiringReflB⟩

/-- The example machine of the Go tests: rotors I, II, III, reflector B,
ring settings AAA, positions AAA, no plugboard. -/
def exampleMachine : Machine :=
  { plugboard := none
    reflector := reflectorB
    rotor := setRotorPositions (setRingSettings (installRotors [rotorI, rotorII, rotorIII])
      [65, 65, 65]) [65, 65, 65] }

example : (typeMsg exampleMachine [65, 65, 65, 65, 65]).2 = [66, 68, 90, 71, 79] := by decide

example : validateRotor rotorI = Check.ok := by decide

example : validateReflector reflectorB = Check.ok := by decide

example : (typeMsg (Machine.mk none reflectorB
    (setRotorPositions (setRingSettings (installRotors [rotorI, rotorII, rotorIII])
      [66, 66, 66]) [65, 65, 65])) [65, 65, 65, 65, 65]).2 = [69, 87, 84, 89, 88] := by decide

example : (typeMsg (Machine.mk (buildPlugboard [(65, 66), (67, 68)]) reflectorB
    (setRotorPositions (setRingSettings (installRotors [rotorI, rotorII, rotorIII])
      [65, 65, 65]) [65, 65, 65])) [65, 65, 65, 65, 65]).2 = [66, 74, 76, 68, 83] := by decide

/- Arithmetic facts about the uint8 modelling. -/

theorem sub8_eq_of_le {a b : Nat} (h1 : b ≤ a) (h2 : a < 256) : sub8 a b = a - b := by
  unfold sub8; omega

theorem sub8_letter {a : Nat} (h : isLetter a) : sub8 a 65 = a - 65 ∧ a - 65 < 26 := by
  obtain ⟨h1, h2⟩ := h
  unfold sub8; omega

theorem addRotation_lt (rot ring c : Nat) : addRotation rot ring c < 26 := by
  unfold addRotation numLetters; omega

theorem removeRotation_lt (rot ring c : Nat) : removeRotation rot ring c < 26 := by
  unfold removeRotation numLetters; omega

theorem removeRotation_addRotation {rot ring c : Nat}
    (h1 : rot < 26) (h2 : ring < 26) (h3 : c < 26) :
    removeRotation rot ring (addRotation rot ring c) = c := by
  unfold addRotation removeRotation numLetters; omega

theorem addRotation_removeRotation {rot ring c : Nat}
    (h1 : rot < 26) (h2 : ring < 26) (h3 : c < 26) :
    addRotation rot ring (removeRotation rot ring c) = c := by
  unfold addRotation removeRotation numLetters; omega

/- Facts about the derived left-to-right mapping. -/

theorem setUpLr_rl {rl : Nat → Nat}
    (hinj : ∀ a b, a < 26 → b < 26 → rl a = rl b → a = b) :
    ∀ i, i < 26 → setUpLr rl (rl i) = i := by
  have key : ∀ n, n ≤ 26 → ∀ i, i < n →
      ((List.range n).foldl (fun lr i => fun j => if j = rl i then i else lr j)
        (fun _ => 0)) (rl i) = i := by
    intro n
    induction n with
    | zero => intro _ i hi; omega
    | succ n ih =>
      intro hn i hi
      rw [List.range_succ, List.foldl_append]
      simp only [List.foldl_cons, List.foldl_nil]
      by_cases hcase : i = n
      · subst hcase; simp
      · have hi' : i < n := by omega
        have : rl i ≠ rl n := by
          intro heq
          exact hcase (hinj i n (by omega) (by omega) heq)
        simp only [this, if_neg]
        exact ih (by omega) i hi'
  intro i hi
  exact key 26 (le_refl 26) i hi

/-- Pigeonhole: a self-map of 0..25 that is surjective is injective. -/
theorem inj_of_surj26 {f : Nat → Nat}
    (hlt : ∀ i, i < 26 → f i < 26)
    (hsurj : ∀ j, j < 26 → ∃ i, i < 26 ∧ f i = j) :
    ∀ a b, a < 26 → b < 26 → f a = f b → a = b := by
  let g : Fin 26 → Fin 26 := fun i => ⟨f i.val, hlt i.val i.isLt⟩
  have hgsurj : Function.Surjective g := by
    intro j
    obtain ⟨i, hi, hfi⟩ := hsurj j.val j.isLt
    exact ⟨⟨i, hi⟩, Fin.ext hfi⟩
  have hginj : Function.Injective g := Finite.injective_iff_surjective.mpr hgsurj
  intro a b ha hb hab
  have : g ⟨a, ha⟩ = g ⟨b, hb⟩ := Fin.ext hab
  exact congrArg Fin.val (hginj this)

/- Extracting facts from a successful run of the validators. -/

theorem vrScan_ok_facts {rl : Nat → Nat} :
    ∀ k, k ≤ 26 → ∀ seen, vrScan rl k seen = Check.ok →
      (∀ i, 26 - k ≤ i → i < 26 → rl i < 26) ∧
      (∀ j, j < 26 → seen j = true ∨ ∃ i, 26 - k ≤ i ∧ i < 26 ∧ rl i = j) := by
  intro k
  induction k with
  | zero =>
    intro _ seen hok
    constructor
    · intro i h1 h2; omega
    · intro j hj
      left
      unfold vrScan at hok
      by_cases hall : (List.range 26).all seen
      · have := List.all_eq_true.mp hall j (List.mem_range.mpr hj)
        exact this
      · simp [hall] at hok
  | succ k ih =>
    intro hk seen hok
    unfold vrScan at hok
    simp only at hok
    by_cases h1 : 26 < rl (26 - (k + 1))
    · rw [if_pos h1] at hok; exact Check.noConfusion hok
    · rw [if_neg h1] at hok
      by_cases h2 : rl (26 - (k + 1)) = 26
      · rw [if_pos h2] at hok; exact Check.noConfusion hok
      · rw [if_neg h2] at hok
        have hrec := ih (by omega) _ hok
        constructor
        · intro i hge hlt
          by_cases hi : i = 26 - (k + 1)
          · subst hi; omega
          · exact hrec.1 i (by omega) hlt
        · intro j hj
          rcases hrec.2 j hj with hseen | ⟨i, hi1, hi2, hi3⟩
          · by_cases hjv : j = rl (26 - (k + 1))
            · right; exact ⟨26 - (k + 1), by omega, by omega, hjv.symm⟩
            · left
              have hseen' : (if j = rl (26 - (k + 1)) then true else seen j) = true := hseen
              rw [if_neg hjv] at hseen'
              exact hseen'
          · right; exact ⟨i, by omega, hi2, hi3⟩

theorem validateRotor_facts {r : Rotor} (h : validateRotor r = Check.ok) :
    (∀ i, i < 26 → r.rlMapping i < 26) ∧
    (∀ j, j < 26 → ∃ i, i < 26 ∧ r.rlMapping i = j) := by
  have := vrScan_ok_facts 26 (le_refl 26) (fun _ => false) h
  refine ⟨fun i hi => this.1 i (by omega) hi, fun j hj => ?_⟩
  rcases this.2 j hj with hfalse | ⟨i, _, hi2, hi3⟩
  · simp at hfalse
  · exact ⟨i, hi2, hi3⟩

theorem refScan_ok_facts {f : Nat → Nat} :
    ∀ k, k ≤ 26 → refScan f k = Check.ok →
      ∀ i, 26 - k ≤ i → i < 26 → f i < 26 ∧ f i ≠ i ∧ f (f i) = i := by
  intro k
  induction k with
  | zero => intro _ _ i h1 h2; omega
  | succ k ih =>
    intro hk hok
    unfold refScan at hok
    simp only at hok
    by_cases h1 : 26 < f (26 - (k + 1))
    · rw [if_pos h1] at hok; exact Check.noConfusion hok
    · rw [if_neg h1] at hok
      by_cases h2 : f (26 - (k + 1)) = 26
      · rw [if_pos h2] at hok; exact Check.noConfusion hok
      · rw [if_neg h2] at hok
        by_cases h3 : f (26 - (k + 1)) = 26 - (k + 1)
        · rw [if_pos h3] at hok; exact Check.noConfusion hok
        · rw [if_neg h3] at hok
          by_cases h4 : f (f (26 - (k + 1))) ≠ 26 - (k + 1)
          · rw [if_pos h4] at hok; exact Check.noConfusion hok
          · rw [if_neg h4] at hok
            have h4' : f (f (26 - (k + 1))) = 26 - (k + 1) := not_not.mp h4
            intro i hge hlt
            by_cases hi : i = 26 - (k + 1)
            · subst hi
              exact ⟨by omega, h3, h4'⟩
            · exact ih (by omega) hok i (by omega) hlt

theorem validateReflector_facts {r : Reflector} (h : validateReflector r = Check.ok) :
    ∀ i, i < 26 → r.mapping i < 26 ∧ r.mapping i ≠ i ∧ r.mapping (r.mapping i) = i :=
  fun i hi => refScan_ok_facts 26 (le_refl 26) h i (by omega) hi

/- Validity invariants of an installed machine. -/

/-- An installed rotor slot is well formed: both wiring maps stay inside
the alphabet, they are mutually inverse, and ring setting and rotation are
in 0..25. -/
def ValidRotor (r : RotorState) : Prop :=
  (∀ i, i < 26 → r.rlMapping i < 26) ∧
  (∀ i, i < 26 → r.lrMapping i < 26) ∧
  (∀ i, i < 26 → r.lrMapping (r.rlMapping i) = i) ∧
  (∀ i, i < 26 → r.rlMapping (r.lrMapping i) = i) ∧
  r.ringsetting < 26 ∧ r.rotation < 26

/-- A reflector table is a fixed-point-free involution inside the alphabet. -/
def ReflOk (f : Nat → Nat) : Prop :=
  ∀ i, i < 26 → f i < 26 ∧ f i ≠ i ∧ f (f i) = i

/-- The plugboard maps letters to letters and is an involution on them. -/
def PlugOk (p : Option Plugboard) : Prop :=
  ∀ k, isLetter k → isLetter (mapLetter p k) ∧ mapLetter p (mapLetter p k) = k

/-- Every part of the machine is well formed. -/
def ValidMachine (m : Machine) : Prop :=
  (∀ r ∈ m.rotor, ValidRotor r) ∧ ReflOk m.reflector.mapping ∧ PlugOk m.plugboard

theorem validRotor_setUpRotor {b : Rotor} (h : validateRotor b = Check.ok) :
    ValidRotor (setUpRotor b) := by
  obtain ⟨hlt, hsurj⟩ := validateRotor_facts h
  have hinj := inj_of_surj26 hlt hsurj
  have hlr_rl := setUpLr_rl hinj
  have hside : ∀ j, j < 26 → setUpLr b.rlMapping j < 26 ∧
      b.rlMapping (setUpLr b.rlMapping j) = j := by
    intro j hj
    obtain ⟨i, hi, hfi⟩ := hsurj j hj
    have : setUpLr b.rlMapping j = i := by rw [← hfi]; exact hlr_rl i hi
    rw [this, hfi]
    exact ⟨hi, rfl⟩
  exact ⟨hlt, fun i hi => (hside i hi).1, hlr_rl, fun i hi => (hside i hi).2,
    Nat.lt_of_sub_eq_succ rfl, Nat.lt_of_sub_eq_succ rfl⟩

theorem validRotor_setRingSettings :
    ∀ (ps : List Nat) (rs : List RotorState), (∀ r ∈ rs, ValidRotor r) →
      (∀ p ∈ ps, isLetter p) → ∀ r ∈ setRingSettings rs ps, ValidRotor r := by
  intro ps
  induction ps with
  | nil =>
    intro rs h _ r hr
    match rs with
    | [] => rw [setRingSettings] at hr; cases hr
    | r0 :: rs => rw [setRingSettings] at hr; exact h r hr
  | cons p ps ih =>
    intro rs h hp r hr
    match rs with
    | [] => rw [setRingSettings] at hr; cases hr
    | r0 :: rs =>
      rw [setRingSettings] at hr
      rcases List.mem_cons.mp hr with heq | hmem
      · subst heq
        obtain ⟨h1, h2, h3, h4, _, h6⟩ := h r0 (List.mem_cons_self r0 rs)
        have hs := sub8_letter (hp p (List.mem_cons_self p ps))
        refine ⟨h1, h2, h3, h4, ?_, h6⟩
        show sub8 p 65 < 26
        omega
      · exact ih rs (fun r hr => h r (List.mem_cons_of_mem _ hr))
          (fun q hq => hp q (List.mem_cons_of_mem _ hq)) r hmem

theorem validRotor_setRotorPositions :
    ∀ (ps : List Nat) (rs : List RotorState), (∀ r ∈ rs, ValidRotor r) →
      (∀ p ∈ ps, isLetter p) → ∀ r ∈ setRotorPositions rs ps, ValidRotor r := by
  intro ps
  induction ps with
  | nil =>
    intro rs h _ r hr
    match rs with
    | [] => rw [setRotorPositions] at hr; cases hr
    | r0 :: rs => rw [setRotorPositions] at hr; exact h r hr
  | cons p ps ih =>
    intro rs h hp r hr
    match rs with
    | [] => rw [setRotorPositions] at hr; cases hr
    | r0 :: rs =>
      rw [setRotorPositions] at hr
      rcases List.mem_cons.mp hr with heq | hmem
      · subst heq
        obtain ⟨h1, h2, h3, h4, h5, _⟩ := h r0 (List.mem_cons_self r0 rs)
        have hs := sub8_letter (hp p (List.mem_cons_self p ps))
        refine ⟨h1, h2, h3, h4, h5, ?_⟩
        show sub8 p 65 < 26
        omega
      · exact ih rs (fun r hr => h r (List.mem_cons_of_mem _ hr))
          (fun q hq => hp q (List.mem_cons_of_mem _ hq)) r hmem

theorem validRotor_rotate {rs : List RotorState} (h : ∀ r ∈ rs, ValidRotor r) :
    ∀ r' ∈ rotate rs, ValidRotor r' := by
  intro r' hr'
  obtain ⟨i, hi, hfi⟩ := List.mem_map.mp hr'
  have hilt : i < rs.length := List.mem_range.mp hi
  have hmem : rs.getD i defaultRS ∈ rs := by
    rw [List.getD_eq_getElem rs defaultRS hilt]
    exact List.getElem_mem hilt
  obtain ⟨h1, h2, h3, h4, h5, h6⟩ := h _ hmem
  simp only at hfi
  split at hfi
  · subst hfi
    refine ⟨h1, h2, h3, h4, h5, ?_⟩
    show ((rs.getD i defaultRS).rotation + 1) % numLetters < 26
    unfold numLetters
    omega
  · subst hfi
    exact ⟨h1, h2, h3, h4, h5, h6⟩

/- The plugboard invariant established by successful pair additions. -/

/-- Invariant of a plugboard built by `AddPlugPair`: all entries are
letters and lookup is symmetric. -/
def PBInv (p : Plugboard) : Prop :=
  (∀ e ∈ p, isLetter e.1 ∧ isLetter e.2) ∧
  (∀ x y, pbLookup p x = some y → pbLookup p y = some x)

theorem pbLookup_mem {p : Plugboard} {x y : Nat} (h : pbLookup p x = some y) :
    (x, y) ∈ p := by
  induction p with
  | nil => cases h
  | cons e rest ih =>
    rw [pbLookup] at h
    by_cases hx : x = e.1
    · rw [if_pos hx] at h
      have : y = e.2 := by injection h with h'; exact h'.symm
      subst this; subst hx
      exact List.mem_cons_self _ _
    · rw [if_neg hx] at h
      exact List.mem_cons_of_mem _ (ih h)

theorem addPlugPair_inv {p p' : Plugboard} {l r : Nat}
    (hp : PBInv p) (hl : isLetter l) (hr : isLetter r)
    (h : addPlugPair p l r = some p') : PBInv p' := by
  unfold addPlugPair at h
  by_cases h1 : (pbLookup p l).isSome
  · rw [if_pos h1] at h; cases h
  · rw [if_neg h1] at h
    by_cases h2 : (pbLookup p r).isSome
    · rw [if_pos h2] at h; cases h
    · rw [if_neg h2] at h
      have hln : pbLookup p l = none := Option.not_isSome_iff_eq_none.mp h1
      have hrn : pbLookup p r = none := Option.not_isSome_iff_eq_none.mp h2
      have hp' : p' = (r, l) :: (l, r) :: p := by injection h with h'; exact h'.symm
      subst hp'
      refine ⟨?_, ?_⟩
      · intro e he
        rcases List.mem_cons.mp he with rfl | he
        · exact ⟨hr, hl⟩
        rcases List.mem_cons.mp he with rfl | he
        · exact ⟨hl, hr⟩
        · exact hp.1 e he
      · have lookup2 : ∀ z, pbLookup ((r, l) :: (l, r) :: p) z =
            if z = r then some l else if z = l then some r else pbLookup p z :=
          fun _ => rfl
        intro x y hxy
        rw [lookup2] at hxy
        rw [lookup2]
        by_cases hxr : x = r
        · rw [if_pos hxr] at hxy
          have hy : y = l := by injection hxy with h'; exact h'.symm
          rw [hy, hxr]
          by_cases hlr : l = r
          · rw [if_pos hlr, hlr]
          · rw [if_neg hlr, if_pos rfl]
        · rw [if_neg hxr] at hxy
          by_cases hxl : x = l
          · rw [if_pos hxl] at hxy
            have hy : y = r := by injection hxy with h'; exact h'.symm
            rw [hy, hxl, if_pos rfl]
          · rw [if_neg hxl] at hxy
            have hsym := hp.2 x y hxy
            have hyl : y ≠ l := by
              intro hyl
              rw [hyl, hln] at hsym; cases hsym
            have hyr : y ≠ r := by
              intro hyr
              rw [hyr, hrn] at hsym; cases hsym
            rw [if_neg hyr, if_neg hyl]
            exact hsym

theorem buildAux_inv :
    ∀ (pairs : List (Nat × Nat)) (p : Plugboard), PBInv p →
      (∀ e ∈ pairs, isLetter e.1 ∧ isLetter e.2) →
      ∀ pb, buildAux p pairs = some pb → PBInv pb := by
  intro pairs
  induction pairs with
  | nil =>
    intro p hp _ pb h
    rw [buildAux] at h
    have : pb = p := by injection h with h'; exact h'.symm
    subst this; exact hp
  | cons pr rest ih =>
    intro p hp hl pb h
    rw [buildAux] at h
    rcases heq : addPlugPair p pr.1 pr.2 with _ | p'
    · rw [heq] at h; cases h
    · rw [heq] at h
      have hpr := hl pr (List.mem_cons_self pr rest)
      exact ih p' (addPlugPair_inv hp hpr.1 hpr.2 heq)
        (fun e he => hl e (List.mem_cons_of_mem _ he)) pb h

theorem plugOk_of_built {pairs : List (Nat × Nat)} {pb : Plugboard}
    (hl : ∀ e ∈ pairs, isLetter e.1 ∧ isLetter e.2)
    (h : buildPlugboard pairs = some pb) : PlugOk (some pb) := by
  have hinv : PBInv pb :=
    buildAux_inv pairs [] ⟨fun e he => absurd he (List.not_mem_nil e), fun x y hxy => by cases hxy⟩ hl pb h
  obtain ⟨hentries, hsymm⟩ := hinv
  intro k hk
  rcases hlk : pbLookup pb k with _ | v
  · have h1 : mapLetter (some pb) k = k := by rw [mapLetter, hlk]; rfl
    rw [h1]
    exact ⟨hk, h1⟩
  · have h1 : mapLetter (some pb) k = v := by rw [mapLetter, hlk]; rfl
    have hmem := pbLookup_mem hlk
    have h2 : mapLetter (some pb) v = k := by rw [mapLetter, hsymm k v hlk]; rfl
    rw [h1]
    exact ⟨(hentries _ hmem).2, h2⟩

theorem plugOk_none : PlugOk none := by
  intro k hk
  exact ⟨hk, rfl⟩

/- The two rotor passes are mutually inverse on a valid machine. -/

theorem rlPass_nil (c : Nat) : rlPass [] c = c := rfl

theorem rlPass_cons (r : RotorState) (rs : List RotorState) (c : Nat) :
    rlPass (r :: rs) c = rotorBackward r (rlPass rs c) := rfl

theorem lrPass_nil (c : Nat) : lrPass [] c = c := rfl

theorem lrPass_cons (r : RotorState) (rs : List RotorState) (c : Nat) :
    lrPass (r :: rs) c = lrPass rs (rotorForward r c) := rfl

theorem rotorBackward_lt (r : RotorState) (c : Nat) : rotorBackward r c < 26 :=
  removeRotation_lt _ _ _

theorem rotorForward_lt (r : RotorState) (c : Nat) : rotorForward r c < 26 :=
  removeRotation_lt _ _ _

theorem rlPass_lt {rs : List RotorState} {c : Nat} (hc : c < 26) : rlPass rs c < 26 := by
  cases rs with
  | nil => exact hc
  | cons r rs => rw [rlPass_cons]; exact rotorBackward_lt r _

theorem lrPass_lt : ∀ {rs : List RotorState} {c : Nat}, c < 26 → lrPass rs c < 26 := by
  intro rs
  induction rs with
  | nil => intro c hc; exact hc
  | cons r rs ih => intro c _; rw [lrPass_cons]; exact ih (rotorForward_lt r c)

theorem rotorForward_backward {r : RotorState} (h : ValidRotor r) {c : Nat} (hc : c < 26) :
    rotorForward r (rotorBackward r c) = c := by
  obtain ⟨h1, _, h3, _, h5, h6⟩ := h
  unfold rotorForward rotorBackward
  have ha : addRotation r.rotation r.ringsetting c < 26 := addRotation_lt _ _ _
  have hm : r.rlMapping (addRotation r.rotation r.ringsetting c) < 26 := h1 _ ha
  rw [addRotation_removeRotation h6 h5 hm, h3 _ ha, removeRotation_addRotation h6 h5 hc]

theorem rotorBackward_forward {r : RotorState} (h : ValidRotor r) {c : Nat} (hc : c < 26) :
    rotorBackward r (rotorForward r c) = c := by
  obtain ⟨_, h2, _, h4, h5, h6⟩ := h
  unfold rotorForward rotorBackward
  have ha : addRotation r.rotation r.ringsetting c < 26 := addRotation_lt _ _ _
  have hm : r.lrMapping (addRotation r.rotation r.ringsetting c) < 26 := h2 _ ha
  rw [addRotation_removeRotation h6 h5 hm, h4 _ ha, removeRotation_addRotation h6 h5 hc]

theorem rlPass_lrPass : ∀ {rs : List RotorState}, (∀ r ∈ rs, ValidRotor r) →
    ∀ {c : Nat}, c < 26 → rlPass rs (lrPass rs c) = c := by
  intro rs
  induction rs with
  | nil => intro _ c _; rfl
  | cons r rs ih =>
    intro h c hc
    rw [lrPass_cons, rlPass_cons,
      ih (fun q hq => h q (List.mem_cons_of_mem _ hq)) (rotorForward_lt r c),
      rotorBackward_forward (h r (List.mem_cons_self r rs)) hc]

theorem lrPass_rlPass : ∀ {rs : List RotorState}, (∀ r ∈ rs, ValidRotor r) →
    ∀ {c : Nat}, c < 26 → lrPass rs (rlPass rs c) = c := by
  intro rs
  induction rs with
  | nil => intro _ c _; rfl
  | cons r rs ih =>
    intro h c hc
    rw [rlPass_cons, lrPass_cons,
      rotorForward_backward (h r (List.mem_cons_self r rs)) (rlPass_lt hc),
      ih (fun q hq => h q (List.mem_cons_of_mem _ hq)) hc]

/- The electrical path is a letter-valued involution that never fixes its
input on a valid machine. -/

theorem signalPath_eq (m : Machine) (k : Nat) :
    signalPath m k = mapLetter m.plugboard
      ((lrPass m.rotor (m.reflector.mapping
        (rlPass m.rotor (sub8 (mapLetter m.plugboard k) 65))) + 65) % 256) := rfl

theorem keyPress_fst (m : Machine) (k : Nat) :
    (keyPress m k).1 = { m with rotor := rotate m.rotor } := rfl

theorem keyPress_snd (m : Machine) (k : Nat) :
    (keyPress m k).2 = signalPath { m with rotor := rotate m.rotor } k := rfl

theorem sub8_add65 {c : Nat} (h : c < 26) : sub8 (c + 65) 65 = c := by
  unfold sub8; omega

/-- The stator-to-stator segment of `KeyPress` (steps between the two
plugboard passes), as a function of the letter entering the stator. -/
def midPath (m : Machine) (x : Nat) : Nat :=
  (lrPass m.rotor (m.reflector.mapping (rlPass m.rotor (sub8 x 65))) + 65) % 256

theorem signalPath_midPath (m : Machine) (k : Nat) :
    signalPath m k = mapLetter m.plugboard (midPath m (mapLetter m.plugboard k)) := rfl

theorem coreInv {rs : List RotorState} (hrot : ∀ r ∈ rs, ValidRotor r)
    {F : Nat → Nat} (hF : ReflOk F) {c : Nat} (hc : c < 26) :
    lrPass rs (F (rlPass rs (lrPass rs (F (rlPass rs c))))) = c := by
  rw [rlPass_lrPass hrot (hF _ (rlPass_lt hc)).1, (hF _ (rlPass_lt hc)).2.2,
    lrPass_rlPass hrot hc]

theorem midPath_letter {m : Machine}
    (hrefl : ReflOk m.reflector.mapping) {x : Nat} (hx : isLetter x) :
    isLetter (midPath m x) := by
  obtain ⟨hs1, hs2⟩ := sub8_letter hx
  have hc0lt : sub8 x 65 < 26 := by rw [hs1]; exact hs2
  have h3lt : lrPass m.rotor (m.reflector.mapping (rlPass m.rotor (sub8 x 65))) < 26 :=
    lrPass_lt (hrefl _ (rlPass_lt hc0lt)).1
  unfold midPath
  rw [Nat.mod_eq_of_lt (by omega)]
  exact ⟨by omega, by omega⟩

theorem midPath_invol {m : Machine} (hrot : ∀ r ∈ m.rotor, ValidRotor r)
    (hrefl : ReflOk m.reflector.mapping) {x : Nat} (hx : isLetter x) :
    midPath m (midPath m x) = x := by
  obtain ⟨hs1, hs2⟩ := sub8_letter hx
  have hc0lt : sub8 x 65 < 26 := by rw [hs1]; exact hs2
  have h3lt : lrPass m.rotor (m.reflector.mapping (rlPass m.rotor (sub8 x 65))) < 26 :=
    lrPass_lt (hrefl _ (rlPass_lt hc0lt)).1
  unfold midPath
  rw [Nat.mod_eq_of_lt (show lrPass m.rotor (m.reflector.mapping (rlPass m.rotor (sub8 x 65))) + 65 < 256 by omega)]
  rw [sub8_add65 h3lt, coreInv hrot hrefl hc0lt, hs1]
  obtain ⟨h65, h90⟩ := hx
  have hback : x - 65 + 65 = x := by omega
  rw [hback, Nat.mod_eq_of_lt (by omega)]

theorem midPath_ne {m : Machine} (hrot : ∀ r ∈ m.rotor, ValidRotor r)
    (hrefl : ReflOk m.reflector.mapping) {x : Nat} (hx : isLetter x) :
    midPath m x ≠ x := by
  intro heq
  obtain ⟨hs1, hs2⟩ := sub8_letter hx
  have hc0lt : sub8 x 65 < 26 := by rw [hs1]; exact hs2
  have h3lt : lrPass m.rotor (m.reflector.mapping (rlPass m.rotor (sub8 x 65))) < 26 :=
    lrPass_lt (hrefl _ (rlPass_lt hc0lt)).1
  unfold midPath at heq
  rw [Nat.mod_eq_of_lt (show lrPass m.rotor (m.reflector.mapping (rlPass m.rotor (sub8 x 65))) + 65 < 256 by omega)] at heq
  have hkey : rlPass m.rotor (lrPass m.rotor (m.reflector.mapping (rlPass m.rotor (sub8 x 65)))) =
      m.reflector.mapping (rlPass m.rotor (sub8 x 65)) :=
    rlPass_lrPass hrot (hrefl _ (rlPass_lt hc0lt)).1
  have hc3 : lrPass m.rotor (m.reflector.mapping (rlPass m.rotor (sub8 x 65))) = sub8 x 65 := by
    obtain ⟨h65, h90⟩ := hx
    omega
  rw [hc3] at hkey
  exact (hrefl (rlPass m.rotor (sub8 x 65)) (rlPass_lt hc0lt)).2.1 hkey.symm

theorem signalPath_facts {m : Machine} (hm : ValidMachine m) {k : Nat} (hk : isLetter k) :
    isLetter (signalPath m k) ∧ signalPath m (signalPath m k) = k := by
  obtain ⟨hrot, hrefl, hplug⟩ := hm
  obtain ⟨ha, hainv⟩ := hplug k hk
  have hmid := midPath_letter hrefl ha
  obtain ⟨hb, hbinv⟩ := hplug _ hmid
  constructor
  · rw [signalPath_midPath]; exact hb
  · simp only [signalPath_midPath]
    rw [hbinv, midPath_invol hrot hrefl ha, hainv]

theorem signalPath_ne {m : Machine} (hm : ValidMachine m) {k : Nat} (hk : isLetter k) :
    signalPath m k ≠ k := by
  intro heq
  obtain ⟨hrot, hrefl, hplug⟩ := hm
  obtain ⟨ha, hainv⟩ := hplug k hk
  have hmid := midPath_letter hrefl ha
  obtain ⟨hb, hbinv⟩ := hplug _ hmid
  rw [signalPath_midPath] at heq
  have := congrArg (mapLetter m.plugboard) heq
  rw [hbinv] at this
  exact midPath_ne hrot hrefl ha this

theorem validMachine_keyPress {m : Machine} (hm : ValidMachine m) (k : Nat) :
    ValidMachine (keyPress m k).1 := by
  obtain ⟨hrot, hrefl, hplug⟩ := hm
  rw [keyPress_fst]
  exact ⟨validRotor_rotate hrot, hrefl, hplug⟩

/- Typing a message twice from the same starting state. -/

theorem typeMsg_cons (m : Machine) (c : Nat) (cs : List Nat) :
    typeMsg m (c :: cs) =
      if c = 32 then ((typeMsg m cs).1, 32 :: (typeMsg m cs).2)
      else ((typeMsg (keyPress m c).1 cs).1,
        (keyPress m c).2 :: (typeMsg (keyPress m c).1 cs).2) := rfl

theorem typeMsg_roundtrip : ∀ (msg : List Nat) (m : Machine), ValidMachine m →
    (∀ c ∈ msg, c = 32 ∨ isLetter c) → (typeMsg m (typeMsg m msg).2).2 = msg := by
  intro msg
  induction msg with
  | nil => intro m _ _; rfl
  | cons c cs ih =>
    intro m hm hmsg
    have hrest : ∀ q ∈ cs, q = 32 ∨ isLetter q :=
      fun q hq => hmsg q (List.mem_cons_of_mem _ hq)
    rcases hmsg c (List.mem_cons_self c cs) with hc | hc
    · subst hc
      show 32 :: (typeMsg m ((typeMsg m cs).2)).2 = 32 :: cs
      exact congrArg (List.cons 32) (ih m hm hrest)
    · have hc32 : c ≠ 32 := by obtain ⟨h65, _⟩ := hc; omega
      have hm1 : ValidMachine (keyPress m c).1 := validMachine_keyPress hm c
      have ho := signalPath_facts hm1 hc
      have holetter : isLetter ((keyPress m c).2) := ho.1
      have ho32 : (keyPress m c).2 ≠ 32 := by obtain ⟨h65, _⟩ := holetter; omega
      rw [typeMsg_cons, if_neg hc32]
      show (typeMsg m ((keyPress m c).2 :: (typeMsg (keyPress m c).1 cs).2)).2 = c :: cs
      rw [typeMsg_cons, if_neg ho32]
      show (keyPress m ((keyPress m c).2)).2 ::
        (typeMsg (keyPress m ((keyPress m c).2)).1 ((typeMsg (keyPress m c).1 cs).2)).2 = c :: cs
      have hsame : (keyPress m ((keyPress m c).2)).1 = (keyPress m c).1 := rfl
      have hhead : (keyPress m ((keyPress m c).2)).2 = c := ho.2
      rw [hsame, hhead, ih (keyPress m c).1 hm1 hrest]

/-- A machine assembled from validated parts is valid. -/
theorem validMachine_of_build
    {bases : List Rotor} {refl : Reflector} {pairs : List (Nat × Nat)} {pb : Plugboard}
    {rings poss : List Nat}
    (hb : ∀ b ∈ bases, validateRotor b = Check.ok)
    (hrefl : validateReflector refl = Check.ok)
    (hpl : ∀ e ∈ pairs, isLetter e.1 ∧ isLetter e.2)
    (hpb : buildPlugboard pairs = some pb)
    (hrings : ∀ c ∈ rings, isLetter c)
    (hposs : ∀ c ∈ poss, isLetter c) :
    ValidMachine (Machine.mk (some pb) refl
      (setRotorPositions (setRingSettings (installRotors bases) rings) poss)) := by
  refine ⟨?_, ?_, ?_⟩
  · apply validRotor_setRotorPositions poss _ _ hposs
    apply validRotor_setRingSettings rings _ _ hrings
    intro r hr'
    obtain ⟨b, hbmem, hbeq⟩ := List.mem_map.mp hr'
    rw [← hbeq]
    exact validRotor_setUpRotor (hb b hbmem)
  · intro i hi
    exact validateReflector_facts hrefl i hi
  · exact plugOk_of_built hpl hpb

/-- The last slot of the stepped rotor list has advanced by one (mod 26). -/
theorem rotate_last {rs : List RotorState} (h : 0 < rs.length) :
    ((rotate rs).getD (rs.length - 1) defaultRS).rotation =
      ((rs.getD (rs.length - 1) defaultRS).rotation + 1) % 26 := by
  have hlt : rs.length - 1 < (rotate rs).length := by
    unfold rotate
    rw [List.length_map, List.length_range]
    omega
  rw [List.getD_eq_getElem _ _ hlt]
  simp only [rotate, List.getElem_map, List.getElem_range]
  simp [numLetters]

/-- The example machine of the double-step test: rotors I, II, III,
reflector B, ring settings AAA, starting positions A, D, U. -/
def enigmaADU : Machine :=
  Machine.mk none reflectorB
    (setRotorPositions (setRingSettings (installRotors [rotorI, rotorII, rotorIII])
      [65, 65, 65]) [65, 68, 85])

/-- The three-slot state with the middle rotor at its own notch (rotors
I, II, III at positions A, E, A): the two stepping variants disagree here. -/
def doubleStepState : List RotorState :=
  setRotorPositions (installRotors [rotorI, rotorII, rotorIII]) [65, 69, 65]

/-- The wiring string with the character 0x5B at position 0: its parsed
value 26 slips past the bounds test of `ValidateRotor` and indexes the
26-entry `seen` array out of range. -/
def badWiring : List Nat :=
  [91, 66, 67, 68, 69, 70, 71, 72, 73, 74, 75, 76, 77, 78, 79, 80,
   81, 82, 83, 84, 85, 86, 87, 88, 89, 90]

/- ----------------------------------------------------------------- -/
/- Claim theorems. -/

/-- C1: Reciprocity round-trip.  For every validated configuration
(rotors passing ValidateRotor, reflector passing ValidateReflector,
plugboard built by successful AddPlugPair calls on letter pairs), every
letter ring settings and starting rotor positions (one per installed
rotor), and every message of letters and spaces, typing the message,
resetting the rotor positions, and typing the output reproduces the
message exactly. -/
theorem c1_reciprocity_roundtrip
    (bases : List Rotor) (refl : Reflector) (pairs : List (Nat × Nat)) (pb : Plugboard)
    (rings poss msg : List Nat)
    (hb : ∀ b ∈ bases, validateRotor b = Check.ok)
    (hrefl : validateReflector refl = Check.ok)
    (hpl : ∀ e ∈ pairs, isLetter e.1 ∧ isLetter e.2)
    (hpb : buildPlugboard pairs = some pb)
    (hrings : ∀ c ∈ rings, isLetter c)
    (hringlen : rings.length = bases.length)
    (hposs : ∀ c ∈ poss, isLetter c)
    (hposlen : poss.length = bases.length)
    (hmsg : ∀ c ∈ msg, c = 32 ∨ isLetter c) :
    (typeMsg (Machine.mk (some pb) refl
        (setRotorPositions (setRingSettings (installRotors bases) rings) poss))
      (typeMsg (Machine.mk (some pb) refl
        (setRotorPositions (setRingSettings (installRotors bases) rings) poss)) msg).2).2 = msg :=
  typeMsg_roundtrip msg _ (validMachine_of_build hb hrefl hpl hpb hrings hposs) hmsg

/-- Witness for C1 at a concrete configuration: rotors I, II, III,
reflector B, plugboard pairs AB and CD, ring settings AAA, positions AAA,
message "AB C". -/
theorem c1_reciprocity_roundtrip_witness :
    (typeMsg (Machine.mk (some [(68, 67), (67, 68), (66, 65), (65, 66)]) reflectorB
        (setRotorPositions (setRingSettings (installRotors [rotorI, rotorII, rotorIII])
          [65, 65, 65]) [65, 65, 65]))
      (typeMsg (Machine.mk (some [(68, 67), (67, 68), (66, 65), (65, 66)]) reflectorB
        (setRotorPositions (setRingSettings (installRotors [rotorI, rotorII, rotorIII])
          [65, 65, 65]) [65, 65, 65])) [65, 66, 32, 67]).2).2 = [65, 66, 32, 67] :=
  c1_reciprocity_roundtrip [rotorI, rotorII, rotorIII] reflectorB [(65, 66), (67, 68)]
    [(68, 67), (67, 68), (66, 65), (65, 66)] [65, 65, 65] [65, 65, 65] [65, 66, 32, 67]
    (by decide) (by decide) (by decide) (by decide) (by decide) (by decide)
    (by decide) (by decide) (by decide)

/-- C2: the rightmost slot always steps by exactly one (mod 26) on every
KeyPress, and with rotors I, II, III at positions A, D, U four consecutive
presses of any keys produce the position triples A,D,V then A,E,W then
B,F,X then B,F,Y. -/
theorem c2_double_step :
    (∀ (m : Machine) (k : Nat), 0 < m.rotor.length →
      ((keyPress m k).1.rotor.getD (m.rotor.length - 1) defaultRS).rotation =
        ((m.rotor.getD (m.rotor.length - 1) defaultRS).rotation + 1) % 26)
    ∧ (∀ k1 k2 k3 k4 : Nat,
        getRotorPositions (pressSeq enigmaADU [k1]).rotor = [65, 68, 86] ∧
        getRotorPositions (pressSeq enigmaADU [k1, k2]).rotor = [65, 69, 87] ∧
        getRotorPositions (pressSeq enigmaADU [k1, k2, k3]).rotor = [66, 70, 88] ∧
        getRotorPositions (pressSeq enigmaADU [k1, k2, k3, k4]).rotor = [66, 70, 89]) := by
  constructor
  · intro m k h
    rw [keyPress_fst]
    exact rotate_last h
  · intro k1 k2 k3 k4
    exact ⟨rfl, rfl, rfl, rfl⟩

/-- Witness for C2's universally quantified part at the example machine. -/
theorem c2_double_step_witness :
    ((keyPress exampleMachine 65).1.rotor.getD (exampleMachine.rotor.length - 1)
      defaultRS).rotation =
    ((exampleMachine.rotor.getD (exampleMachine.rotor.length - 1) defaultRS).rotation + 1) % 26 :=
  c2_double_step.1 exampleMachine 65 (by decide)

/-- C3, counterexample: at the three-slot state with the middle rotor at
its own notch and the right rotor away from its notch, the iff-rule
stepping of src/unnamed/part_000 and the cascade stepping of
src/logical.go produce different successor rotation vectors (the cascade
never double-steps the middle rotor). -/
theorem c3_cascade_iff_counterexample :
    (rotate doubleStepState).map (fun r => r.rotation) ≠
      (logicalRotate doubleStepState).map (fun r => r.rotation) := by decide

/-- C3, amended: the cascade stepping and the iff-rule stepping agree on
every machine state with at most two rotor slots; with three or more
slots they can differ (see the counterexample). -/
theorem c3_cascade_iff_two_slots (rs : List RotorState) (h : rs.length ≤ 2) :
    rotate rs = logicalRotate rs := by
  rcases rs with _ | ⟨a, _ | ⟨b, _ | ⟨c, rest⟩⟩⟩
  · rfl
  · cases hna : a.turnoverPoints a.rotation <;>
      simp [rotate, logicalRotate, cascadeAux, hna, List.range_succ]
  · cases hnb : b.turnoverPoints b.rotation <;>
      cases hna : a.turnoverPoints a.rotation <;>
      simp [rotate, logicalRotate, cascadeAux, hna, hnb, List.range_succ]
  · simp at h

/-- Witness for the amended C3 at a concrete two-slot state. -/
theorem c3_cascade_iff_two_slots_witness :
    rotate (setRotorPositions (installRotors [rotorI, rotorII]) [65, 81]) =
      logicalRotate (setRotorPositions (installRotors [rotorI, rotorII]) [65, 81]) :=
  c3_cascade_iff_two_slots _ (by decide)

/-- C4: evaluating Go makeRotor on a wiring string containing the
character 0x5B (value 26 after subtracting 0x41): the claim expects a
returned ConfigurationError, but the code's bounds test `v > 26` lets the
value 26 through and the write `seen[26]` in ValidateRotor panics. -/
theorem c4_makeRotor_value26_crash :
    makeRotor badWiring 65 = MakeRotorResult.crash := rfl

/-- C5, counterexample: AddPlugPair on an empty plugboard accepts the
degenerate self-pair (A, A) instead of returning an error, registering the
letter as mapped to itself. -/
theorem c5_self_pair_counterexample :
    addPlugPair ([] : Plugboard) 65 65 = some [(65, 65), (65, 65)] := rfl

/-- C5, amended: AddPlugPair returns an error exactly when either letter
already belongs to an existing pair; a self-pair of a fresh letter is
accepted (and maps the letter to itself).  On success the pair is
registered symmetrically: mapping left gives right and mapping right
gives left. -/
theorem c5_add_plug_pair (p : Plugboard) (l r : Nat) :
    (addPlugPair p l r = none ↔ (pbLookup p l).isSome ∨ (pbLookup p r).isSome)
    ∧ (∀ p', addPlugPair p l r = some p' →
        mapLetter (some p') l = r ∧ mapLetter (some p') r = l) := by
  constructor
  · unfold addPlugPair
    by_cases h1 : (pbLookup p l).isSome
    · simp [h1]
    · by_cases h2 : (pbLookup p r).isSome
      · simp [h1, h2]
      · simp [h1, h2]
  · intro p' hp'
    unfold addPlugPair at hp'
    by_cases h1 : (pbLookup p l).isSome
    · rw [if_pos h1] at hp'; cases hp'
    · rw [if_neg h1] at hp'
      by_cases h2 : (pbLookup p r).isSome
      · rw [if_pos h2] at hp'; cases hp'
      · rw [if_neg h2] at hp'
        have hpeq : p' = (r, l) :: (l, r) :: p := by injection hp' with h'; exact h'.symm
        subst hpeq
        have lookup2 : ∀ z, pbLookup ((r, l) :: (l, r) :: p) z =
            if z = r then some l else if z = l then some r else pbLookup p z :=
          fun _ => rfl
        constructor
        · rw [mapLetter, lookup2]
          by_cases hlr : l = r
          · rw [if_pos hlr]
            simp only [Option.getD_some]
            exact hlr
          · rw [if_neg hlr, if_pos rfl]
            rfl
        · rw [mapLetter, lookup2, if_pos rfl]
          rfl

/-- Witness for the amended C5: a successful addition of the pair (A, B)
to the empty plugboard maps A to B and B to A. -/
theorem c5_add_plug_pair_witness :
    mapLetter (some [(66, 65), (65, 66)]) 65 = 66 ∧
      mapLetter (some [(66, 65), (65, 66)]) 66 = 65 :=
  (c5_add_plug_pair [] 65 66).2 [(66, 65), (65, 66)] (by decide)

/-- C6: no self-encryption.  On a machine whose rotors pass ValidateRotor,
whose reflector passes ValidateReflector, and whose plugboard was built
only by successful AddPlugPair calls on letter pairs, KeyPress never
returns the key that was pressed. -/
theorem c6_no_self_encryption
    (bases : List Rotor) (refl : Reflector) (pairs : List (Nat × Nat)) (pb : Plugboard)
    (rings poss : List Nat) (k : Nat)
    (hb : ∀ b ∈ bases, validateRotor b = Check.ok)
    (hrefl : validateReflector refl = Check.ok)
    (hpl : ∀ e ∈ pairs, isLetter e.1 ∧ isLetter e.2)
    (hpb : buildPlugboard pairs = some pb)
    (hrings : ∀ c ∈ rings, isLetter c)
    (hposs : ∀ c ∈ poss, isLetter c)
    (hk : isLetter k) :
    (keyPress (Machine.mk (some pb) refl
      (setRotorPositions (setRingSettings (installRotors bases) rings) poss)) k).2 ≠ k := by
  have hm := validMachine_of_build hb hrefl hpl hpb hrings hposs
  have hm1 := validMachine_keyPress hm k
  rw [keyPress_snd]
  exact signalPath_ne hm1 hk

/-- Witness for C6 at the example configuration, pressing A. -/
theorem c6_no_self_encryption_witness :
    (keyPress (Machine.mk (some [(68, 67), (67, 68), (66, 65), (65, 66)]) reflectorB
      (setRotorPositions (setRingSettings (installRotors [rotorI, rotorII, rotorIII])
        [65, 65, 65]) [65, 65, 65])) 65).2 ≠ 65 :=
  c6_no_self_encryption [rotorI, rotorII, rotorIII] reflectorB [(65, 66), (67, 68)]
    [(68, 67), (67, 68), (66, 65), (65, 66)] [65, 65, 65] [65, 65, 65] 65
    (by decide) (by decide) (by decide) (by decide) (by decide) (by decide) (by decide)

/-- C7: for rotation, ring setting and contact in 0..25, addRotation is
exactly (contact + rot - ring) mod 26 and removeRotation is exactly
(contact - rot + ring) mod 26 as integers, and removeRotation undoes
addRotation. -/
theorem c7_offset_arithmetic (rot ringsetting c : Nat)
    (h1 : rot < 26) (h2 : ringsetting < 26) (h3 : c < 26) :
    ((addRotation rot ringsetting c : Nat) : Int) =
        ((c : Int) + (rot : Int) - (ringsetting : Int)) % 26
    ∧ ((removeRotation rot ringsetting c : Nat) : Int) =
        ((c : Int) - (rot : Int) + (ringsetting : Int)) % 26
    ∧ removeRotation rot ringsetting (addRotation rot ringsetting c) = c := by
  refine ⟨?_, ?_, removeRotation_addRotation h1 h2 h3⟩
  · unfold addRotation numLetters
    omega
  · unfold removeRotation numLetters
    omega

/-- Witness for C7 at rot = 1, ring = 2, contact = 3. -/
theorem c7_offset_arithmetic_witness :
    ((addRotation 1 2 3 : Nat) : Int) = ((3 : Int) + (1 : Int) - (2 : Int)) % 26
    ∧ ((removeRotation 1 2 3 : Nat) : Int) = ((3 : Int) - (1 : Int) + (2 : Int)) % 26
    ∧ removeRotation 1 2 (addRotation 1 2 3) = 3 :=
  c7_offset_arithmetic 1 2 3 (by decide) (by decide) (by decide)

/-- C8: for a rotor whose right-to-left wiring is a bijection on 0..25,
the left-to-right mapping derived by setUpRotor is its exact inverse in
both directions. -/
theorem c8_derived_inverse (base : Rotor)
    (hlt : ∀ i, i < 26 → base.rlMapping i < 26)
    (hinj : ∀ a, a < 26 → ∀ b, b < 26 → base.rlMapping a = base.rlMapping b → a = b)
    (hsurj : ∀ j, j < 26 → ∃ i, i < 26 ∧ base.rlMapping i = j) :
    ∀ i, i < 26 → (setUpRotor base).lrMapping (base.rlMapping i) = i ∧
      base.rlMapping ((setUpRotor base).lrMapping i) = i := by
  have hinj' : ∀ a b, a < 26 → b < 26 → base.rlMapping a = base.rlMapping b → a = b :=
    fun a b ha hb => hinj a ha b hb
  intro i hi
  constructor
  · exact setUpLr_rl hinj' i hi
  · obtain ⟨a, ha, hfa⟩ := hsurj i hi
    have hval : (setUpRotor base).lrMapping i = a := by
      show setUpLr base.rlMapping i = a
      rw [← hfa]
      exact setUpLr_rl hinj' a ha
    rw [hval, hfa]

/-- Witness for C8 at rotor I and contact 0. -/
theorem c8_derived_inverse_witness :
    (setUpRotor rotorI).lrMapping (rotorI.rlMapping 0) = 0 ∧
      rotorI.rlMapping ((setUpRotor rotorI).lrMapping 0) = 0 :=
  c8_derived_inverse rotorI (by decide) (by decide) (by decide) 0 (by decide)

theorem pressSeq_length_only : ∀ (ks1 : List Nat) (ks2 : List Nat) (m : Machine),
    ks1.length = ks2.length → pressSeq m ks1 = pressSeq m ks2 := by
  intro ks1
  induction ks1 with
  | nil =>
    intro ks2 m h
    cases ks2 with
    | nil => rfl
    | cons a t => simp at h
  | cons k t ih =>
    intro ks2 m h
    cases ks2 with
    | nil => simp at h
    | cons k2 t2 =>
      show pressSeq (keyPress m k).1 t = pressSeq (keyPress m k2).1 t2
      have hk : (keyPress m k).1 = (keyPress m k2).1 := rfl
      rw [hk]
      exact ih t2 _ (by simpa using h)

/-- C9: stepping is letter-independent and deterministic.  Two identically
configured machines pressed with any two key sequences of the same length
end in identical states (the rotation update never reads the key), and
the same key sequence produces the same output sequence. -/
theorem c9_stepping_determinism (m1 m2 : Machine) (ks1 ks2 : List Nat)
    (hm : m1 = m2) (hlen : ks1.length = ks2.length) :
    pressSeq m1 ks1 = pressSeq m2 ks2
    ∧ (ks1 = ks2 → pressOuts m1 ks1 = pressOuts m2 ks2) := by
  subst hm
  exact ⟨pressSeq_length_only ks1 ks2 m1 hlen, fun heq => by rw [heq]⟩

/-- Witness for C9: pressing A and pressing B leave the example machine in
the same state. -/
theorem c9_stepping_determinism_witness :
    pressSeq exampleMachine [65] = pressSeq exampleMachine [66]
    ∧ ([65] = ([66] : List Nat) →
        pressOuts exampleMachine [65] = pressOuts exampleMachine [66]) :=
  c9_stepping_determinism exampleMachine exampleMachine [65] [66] rfl (by decide)

/-- C10: Type returns a string of the same length as its input; its
final machine state advances only on non-space characters; every space is
copied through unchanged at its index, and every non-space character at
index i is replaced by KeyPress applied to it at the state reached after
the non-space characters before index i. -/
theorem c10_type_space_passthrough (m : Machine) (msg : List Nat) :
    (typeMsg m msg).2.length = msg.length
    ∧ (typeMsg m msg).1 = stepChars m msg
    ∧ ∀ i, i < msg.length →
        (typeMsg m msg).2.getD i 0 =
          if msg.getD i 0 = 32 then 32
          else (keyPress (stepChars m (msg.take i)) (msg.getD i 0)).2 := by
  induction msg generalizing m with
  | nil =>
    exact ⟨rfl, rfl, fun i hi => absurd hi (by simp)⟩
  | cons c cs ih =>
    by_cases hc : c = 32
    · subst hc
      obtain ⟨l1, s1, i1⟩ := ih m
      refine ⟨?_, ?_, ?_⟩
      · show (32 :: (typeMsg m cs).2).length = (32 :: cs).length
        simp [l1]
      · show (typeMsg m cs).1 = stepChars m (32 :: cs)
        exact s1
      · intro i hi
        cases i with
        | zero => rfl
        | succ i =>
          show (32 :: (typeMsg m cs).2).getD (i + 1) 0 = _
          rw [List.getD_cons_succ, List.getD_cons_succ, List.take_succ_cons]
          exact i1 i (by simpa using hi)
    · have heq : typeMsg m (c :: cs) = ((typeMsg (keyPress m c).1 cs).1,
          (keyPress m c).2 :: (typeMsg (keyPress m c).1 cs).2) := by
        rw [typeMsg_cons, if_neg hc]
      have hstep : stepChars m (c :: cs) = stepChars (keyPress m c).1 cs := by
        show List.foldl _ (if c = 32 then m else (keyPress m c).1) cs = _
        rw [if_neg hc]
        rfl
      obtain ⟨l1, s1, i1⟩ := ih (keyPress m c).1
      refine ⟨?_, ?_, ?_⟩
      · rw [heq]
        show ((keyPress m c).2 :: (typeMsg (keyPress m c).1 cs).2).length = (c :: cs).length
        simp [l1]
      · rw [heq, hstep]
        exact s1
      · intro i hi
        cases i with
        | zero =>
          rw [heq]
          show (keyPress m c).2 = if (c :: cs).getD 0 0 = 32 then 32
            else (keyPress (stepChars m ((c :: cs).take 0)) ((c :: cs).getD 0 0)).2
          rw [List.getD_cons_zero, if_neg hc]
          rfl
        | succ i =>
          rw [heq]
          show ((keyPress m c).2 :: (typeMsg (keyPress m c).1 cs).2).getD (i + 1) 0 = _
          rw [List.getD_cons_succ, List.getD_cons_succ, List.take_succ_cons]
          have hstep2 : stepChars m (c :: cs.take i) = stepChars (keyPress m c).1 (cs.take i) := by
            show List.foldl _ (if c = 32 then m else (keyPress m c).1) (cs.take i) = _
            rw [if_neg hc]
            rfl
          rw [hstep2]
          exact i1 i (by simpa using hi)

/-- Witness for C10: spaces survive unchanged at their index on the
example machine. -/
theorem c10_type_space_passthrough_witness :
    (typeMsg exampleMachine [65, 32]).2.getD 1 0 =
      if ([65, 32].getD 1 0 : Nat) = 32 then 32
      else (keyPress (stepChars exampleMachine ([65, 32].take 1)) ([65, 32].getD 1 0)).2 :=
  (c10_type_space_passthrough exampleMachine [65, 32]).2.2 1 (by decide)

end Enigma
